import Mathlib

/-!
Verification of the TDVF module data model from `scripts/tdvf_module.py`:
the `Address` helper class, the `TdvfModule` entity and the
`TdvfModuleTable` collection.  Python machine integers are modelled as
`Nat` with the explicit 64-bit bound `ADDR_MAX`; failing `assert`
statements and raised exceptions are modelled as `Except String`
results carrying the assertion message.
-/

/-! ## Address (`class Address`)

`Address.__init__` accepts an `int` or a hexadecimal `str` (parsed with
`int(value, 16)`), and asserts `0 <= value <= 2**64 - 1`.  It stores both
the numeric value and `hex(value)`.  We model an address as the validated
`Nat` itself; the canonical textual form is `pyHex` (Python's `hex`).
-/

/-- `Address.__ADDR_MAX_VAL = 2 ** 64 - 1`. -/
def ADDR_MAX : Nat := 2 ^ 64 - 1

/-- Lowercase hex digit character for `d < 16`, as produced by Python `hex`. -/
def hexDigitChar (d : Nat) : Char :=
  if d < 10 then Char.ofNat (48 + d) else Char.ofNat (87 + d)

/-- Little-endian hex digit values of `n`, with explicit fuel so the
definition is structurally recursive (`hexDigitsFuel n n` is exact). -/
def hexDigitsFuel : Nat → Nat → List Nat
  | 0, _ => []
  | fuel + 1, n => if n = 0 then [] else n % 16 :: hexDigitsFuel fuel (n / 16)

/-- Little-endian hex digit values of `n` (empty for `n = 0`). -/
def digitsLE (n : Nat) : List Nat := hexDigitsFuel n n

/-- Numeric value of a little-endian hex digit list. -/
def valLE : List Nat → Nat
  | [] => 0
  | d :: ds => d + 16 * valLE ds

/-- The character list of Python's `hex(n)` without the `0x` marker. -/
def pyHexChars (n : Nat) : List Char :=
  if n = 0 then ['0'] else ((digitsLE n).reverse).map hexDigitChar

/-- Python's `hex(n)`: `0x` marker followed by lowercase hex digits. -/
def pyHex (n : Nat) : String := ⟨'0' :: 'x' :: pyHexChars n⟩

/-- Value of a single hex digit character (both cases), `none` otherwise. -/
def parseHexDigit (c : Char) : Option Nat :=
  if 48 ≤ c.toNat ∧ c.toNat ≤ 57 then some (c.toNat - 48)
  else if 97 ≤ c.toNat ∧ c.toNat ≤ 102 then some (c.toNat - 87)
  else if 65 ≤ c.toNat ∧ c.toNat ≤ 70 then some (c.toNat - 55)
  else none

/-- Left fold of hex digits onto an accumulator; `none` on a non-digit. -/
def parseHexCore : List Char → Nat → Option Nat
  | [], acc => some acc
  | c :: cs, acc =>
    match parseHexDigit c with
    | some d => parseHexCore cs (16 * acc + d)
    | none => none

/-- Python's `int(s, 16)` on the canonical forms used by the code: an
optional `0x`/`0X` marker followed by at least one hex digit.  (Python
additionally tolerates whitespace, signs and underscores; the code under
verification only ever feeds it `hex(v)` output or equivalent literals.) -/
def int16 (s : String) : Option Nat :=
  match s.data with
  | [] => none
  | '0' :: 'x' :: rest => if rest.isEmpty then none else parseHexCore rest 0
  | '0' :: 'X' :: rest => if rest.isEmpty then none else parseHexCore rest 0
  | l => parseHexCore l 0

/-- `Address.__init__` from an integer value: asserts
`0 <= value <= ADDR_MAX` (negativity cannot arise here since callers pass
natural numbers).  Returns the validated value. -/
def mkAddress (v : Nat) : Except String Nat :=
  if v ≤ ADDR_MAX then .ok v
  else .error "address value must be smaller or equal to 18446744073709551615"

/-- `Address.__init__` from a string value: `int(value, 16)` then the
range checks. -/
def addressOfStr (s : String) : Except String Nat :=
  match int16 s with
  | none => .error "invalid literal for int() with base 16"
  | some v => mkAddress v

/-- `Address.__add__`: `Address(int(self) + int(other))` — the sum is
re-validated by the constructor, so an out-of-range sum fails instead of
wrapping. -/
def addAddress (a b : Nat) : Except String Nat := mkAddress (a + b)

/-! ## TdvfModule (`class TdvfModule`)

A module holds a name, three addresses (modelled as validated `Nat`
values), a `.text` size and three optional file-system paths.  All
attribute writes in the source go through property setters; the setters
are modelled below and every construction path composes them. -/

structure TdvfModule where
  name : String
  img_base : Nat
  t_start : Nat
  t_end : Nat
  t_size : Nat
  bin_path : Option String
  dbg_path : Option String
  efi_path : Option String
deriving DecidableEq

deriving instance DecidableEq for Except

/-- `TdvfModule.__eq__`: compares only the `.text` bounds. -/
def TdvfModule.pyEq (a b : TdvfModule) : Bool :=
  a.t_start == b.t_start && a.t_end == b.t_end

/-- `TdvfModule.__lt__`: lexicographic on (`t_start`, `t_end`). -/
def modLTb (a b : TdvfModule) : Bool :=
  a.t_start < b.t_start || (a.t_start == b.t_start && a.t_end < b.t_end)

/-- `TdvfModule.__gt__`: lexicographic on (`t_start`, `t_end`). -/
def modGTb (a b : TdvfModule) : Bool :=
  a.t_start > b.t_start || (a.t_start == b.t_start && a.t_end > b.t_end)

/-- The non-strict order under which Python's stable `sorted` (which only
invokes `__lt__`) arranges modules: `a` may stay left of `b` iff `¬ b < a`. -/
def modLE (a b : TdvfModule) : Prop := modLTb b a = false

instance : DecidableRel modLE := fun _ _ => inferInstanceAs (Decidable (_ = false))

/-- Python truthiness of an optional string: `None` and `''` are falsy. -/
def pyTruthy : Option String → Bool
  | none => false
  | some s => s ≠ ""

/-- `bin_path` setter: `if path: assert os.path.exists(path)`; stores the
given value unchanged.  The file system is abstracted as `fs`. -/
def setBinPath (fs : String → Bool) (p : Option String) : Except String (Option String) :=
  if pyTruthy p then
    if fs (p.getD "") then .ok p
    else .error "invalid path to module binary directory"
  else .ok p

/-- `dbg_path` setter: a falsy path defaults to `bin_path/name.debug` when
`bin_path` and `name` are truthy; a truthy result must end in `.debug` and
exist. -/
def setDbgPath (fs : String → Bool) (binPath : Option String) (name : String)
    (p0 : Option String) : Except String (Option String) :=
  let p := if pyTruthy p0 then p0
           else if pyTruthy binPath && name != "" then
             some (binPath.getD "" ++ "/" ++ name ++ ".debug")
           else p0
  if pyTruthy p then
    if (p.getD "").endsWith ".debug" && fs (p.getD "") then .ok p
    else .error "invalid path to module .debug file"
  else .ok p

/-- `efi_path` setter: same shape as `dbg_path` with suffix `.efi`. -/
def setEfiPath (fs : String → Bool) (binPath : Option String) (name : String)
    (p0 : Option String) : Except String (Option String) :=
  let p := if pyTruthy p0 then p0
           else if pyTruthy binPath && name != "" then
             some (binPath.getD "" ++ "/" ++ name ++ ".efi")
           else p0
  if pyTruthy p then
    if (p.getD "").endsWith ".efi" && fs (p.getD "") then .ok p
    else .error "invalid path to module .efi file"
  else .ok p

/-- `t_size` setter: asserts `size >= 0` (the argument is an `int`; JSON
input may be negative, hence `Int` here). -/
def setTSize (size : Int) : Except String Nat :=
  if size < 0 then .error ".text size value must be positive" else .ok size.toNat

/-- `TdvfModule.__init__` with integer address arguments: each field is
assigned through its property setter, in source order.  Note that no
setter relates `t_end` to `t_start + t_size`. -/
def TdvfModule.init (fs : String → Bool) (name : String)
    (img_base t_start t_end : Nat) (t_size : Int)
    (bin_path dbg_path efi_path : Option String) : Except String TdvfModule := do
  let b ← mkAddress img_base
  let ts ← mkAddress t_start
  let te ← mkAddress t_end
  let sz ← setTSize t_size
  let bp ← setBinPath fs bin_path
  let dp ← setDbgPath fs bp name dbg_path
  let ep ← setEfiPath fs bp name efi_path
  .ok ⟨name, b, ts, te, sz, bp, dp, ep⟩

/-- The record produced by `TdvfModule.to_dict` (and consumed by
`from_dict`): addresses in hex-string form, the size as a JSON integer. -/
structure ModuleRecord where
  name : String
  img_base : String
  text_start : String
  text_end : String
  text_size : Int
  binary_path : Option String
  debug_path : Option String
  efi_path : Option String
deriving DecidableEq

/-- `TdvfModule.to_dict`: `str(...)` of each address is `hex(value)`. -/
def TdvfModule.to_dict (m : TdvfModule) : ModuleRecord :=
  ⟨m.name, pyHex m.img_base, pyHex m.t_start, pyHex m.t_end, (m.t_size : Int),
   m.bin_path, m.dbg_path, m.efi_path⟩

/-- `TdvfModule.from_dict`: reads every key of the record and re-runs
`__init__`, so the hex strings go through `Address.__init__`'s string
branch.  (All keys are present in records produced by `to_dict`; the
source would raise `KeyError`/`NameError` on records missing required
keys, which cannot arise here.) -/
def TdvfModule.from_dict (fs : String → Bool) (d : ModuleRecord) : Except String TdvfModule := do
  let b ← addressOfStr d.img_base
  let ts ← addressOfStr d.text_start
  let te ← addressOfStr d.text_end
  let sz ← setTSize d.text_size
  let bp ← setBinPath fs d.binary_path
  let dp ← setDbgPath fs bp d.name d.debug_path
  let ep ← setEfiPath fs bp d.name d.efi_path
  .ok ⟨d.name, b, ts, te, sz, bp, dp, ep⟩

/-- A module whose stored fields pass their own setters unchanged: the
addresses are in range and the three path values are fixed points of the
path setters.  Every module built by `init`/`from_dict` satisfies this. -/
def TdvfModule.valid (fs : String → Bool) (m : TdvfModule) : Prop :=
  m.img_base ≤ ADDR_MAX ∧ m.t_start ≤ ADDR_MAX ∧ m.t_end ≤ ADDR_MAX ∧
  setBinPath fs m.bin_path = .ok m.bin_path ∧
  setDbgPath fs m.bin_path m.name m.dbg_path = .ok m.dbg_path ∧
  setEfiPath fs m.bin_path m.name m.efi_path = .ok m.efi_path

instance (fs : String → Bool) (m : TdvfModule) : Decidable (m.valid fs) :=
  inferInstanceAs (Decidable (_ ∧ _))

/-- `TdvfModule.fill_text_info` called without an argument (as the table
does).  `reader p` abstracts `pefile.PE(p)` returning
(`BaseOfCode`, `SizeOfCode`); PE optional-header fields are unsigned, so
they are `Nat`s.  Mirrored control flow, in source order:
`assert efi_path`; `get_toffset_and_tsize` (which wraps the offset in
`Address(...)`); the `t_size` setter; `compute_tstart` — whose
`assert self.img_base` is vacuous, because `Address` defines neither
`__bool__` nor `__len__`, so `Address(0)` is truthy — then
`Address.__add__` and the `t_start` setter; `compute_tend` — whose
`assert t_start` is vacuous for the same reason, while `assert t_size`
really fails on a zero size — then the `t_end` setter.  (On failure the
Python object keeps the partial writes already made; the model returns
only the error.) -/
def TdvfModule.fill_text_info (reader : String → Except String (Nat × Nat))
    (m : TdvfModule) : Except String TdvfModule :=
  match m.efi_path with
  | none => .error "must specify a valid module .efi file path"
  | some p =>
    if p = "" then .error "must specify a valid module .efi file path"
    else do
      let (toff, tsize) ← reader p
      let t_offset ← mkAddress toff
      let m1 : TdvfModule := { m with t_size := tsize }
      let t_start ← mkAddress (m1.img_base + t_offset)
      let m2 : TdvfModule := { m1 with t_start := t_start }
      if m2.t_size = 0 then .error "cannot compute .text end without .text size"
      else do
        let t_end ← mkAddress (m2.t_start + m2.t_size)
        .ok { m2 with t_end := t_end }

/-! ## TdvfModuleTable (`class TdvfModuleTable`)

The table stores an `OrderedDict` from module name to module; every
construction path first sorts the modules with Python's stable `sorted`
(which compares via `TdvfModule.__lt__`) and then builds the dict, where
a repeated key overwrites the stored value *in place* (Python dicts keep
the first occurrence's position on update).  The table is modelled by its
enumeration view, a `List TdvfModule`. -/

structure TdvfModuleTable where
  modules : List TdvfModule
deriving DecidableEq

/-- Sequential monadic map in `Except`, mirroring a Python `for` loop
that raises on the first failing element. -/
def exceptMapM {α β : Type} (f : α → Except String β) : List α → Except String (List β)
  | [] => .ok []
  | a :: l => do
    let b ← f a
    let bs ← exceptMapM f l
    .ok (b :: bs)

/-- `d[m.name] = m` on an association list with dict semantics: an
existing key keeps its position and gets the new value, a new key is
appended. -/
def odInsert (acc : List (String × TdvfModule)) (m : TdvfModule) :
    List (String × TdvfModule) :=
  if acc.any (fun p => p.1 == m.name) then
    acc.map (fun p => if p.1 == m.name then (p.1, m) else p)
  else acc ++ [(m.name, m)]

/-- `OrderedDict((m.name, m) for m in ms)` (also the `modules = {}` dict
built by `read_from_file`). -/
def odOfList (ms : List TdvfModule) : List (String × TdvfModule) :=
  ms.foldl odInsert []

/-- The order used by `sorted(modules.items(), key=lambda item: item[1])`. -/
def pairLE (p q : String × TdvfModule) : Prop := modLE p.2 q.2

instance : DecidableRel pairLE := fun p q => inferInstanceAs (Decidable (modLE p.2 q.2))

/-- The `modules` property setter on a list of `TdvfModule`s:
`OrderedDict((m.name, m) for m in sorted(modules))`. -/
def modulesSetter (ms : List TdvfModule) : List (String × TdvfModule) :=
  odOfList (List.insertionSort modLE ms)

/-- The enumeration view (`self.modules.values()`) after the setter ran. -/
def modulesView (ms : List TdvfModule) : List TdvfModule :=
  (modulesSetter ms).map (·.2)

/-- `module_adrs == sorted(module_adrs)` for a list of `Address` values:
the list is non-decreasing. -/
def nonDecreasing : List Nat → Bool
  | [] => true
  | [_] => true
  | a :: b :: t => a ≤ b && nonDecreasing (b :: t)

/-- `TdvfModuleTable.__init__(modules)` on a name-keyed dict: when the
dict is falsy (empty) nothing is assigned and the `modules` attribute is
left unset (any later access raises `AttributeError`; modelled as an
error).  Otherwise the items are sorted by value, pushed through the
`modules` setter, and the trailing `assert` compares the `t_start`
enumeration with its sorted version. -/
def tableInit (dict : List (String × TdvfModule)) : Except String TdvfModuleTable :=
  if dict.isEmpty then .error "TdvfModuleTable.modules left unset"
  else
    let values := (List.insertionSort pairLE dict).map (·.2)
    let view := (odOfList (List.insertionSort modLE values)).map (·.2)
    if nonDecreasing (view.map (·.t_start)) then .ok ⟨view⟩
    else .error "module .text start addresses not sorted"

/-- `TdvfModuleTable.read_from_file` after `json.load` produced the list
of records: build each module with `from_dict` (raising on the first bad
record), collect them into the name-keyed `modules` dict — a duplicate
name silently overwrites — and call `__init__` on it. -/
def read_from_records (fs : String → Bool) (rs : List ModuleRecord) :
    Except String TdvfModuleTable := do
  let ms ← exceptMapM (TdvfModule.from_dict fs) rs
  tableInit (odOfList ms)

/-- `TdvfModuleTable.to_json` with no filter: the records of all modules
in table order (`json.dumps` concrete text is presentation only and is
modelled at the record level). -/
def TdvfModuleTable.to_json_records (t : TdvfModuleTable) : List ModuleRecord :=
  t.modules.map TdvfModule.to_dict

/-- `TdvfModuleTable.fill_text_info`: a bare `for` loop calling
`m.fill_text_info()` on every module; the first exception propagates and
the remaining modules are never attempted. -/
def TdvfModuleTable.fill_text_info (reader : String → Except String (Nat × Nat))
    (t : TdvfModuleTable) : Except String TdvfModuleTable := do
  let ms ← exceptMapM (TdvfModule.fill_text_info reader) t.modules
  .ok ⟨ms⟩

/-! ## Concrete fixtures used by witnesses and counterexamples -/

/-- A module with an artifact path and image base `0x1000`. -/
def mSec : TdvfModule := ⟨"SecMain", 0x1000, 0, 0, 0, none, none, some "SecMain.efi"⟩

/-- A module whose image base was never set (left at the default `0`). -/
def mZeroBase : TdvfModule := ⟨"SecMain", 0, 0, 0, 0, none, none, some "SecMain.efi"⟩

/-- A module with no artifact path at all. -/
def mNoEfi : TdvfModule := ⟨"NoEfi", 0x2000, 0, 0, 0, none, none, none⟩

/-- Modules `mX1`/`mX3` share the name `X`; `mY2` sits between them in
address order. -/
def mX1 : TdvfModule := ⟨"X", 0, 0, 1, 1, none, none, none⟩

def mY2 : TdvfModule := ⟨"Y", 0, 1, 2, 1, none, none, none⟩

def mX3 : TdvfModule := ⟨"X", 0, 2, 3, 1, none, none, none⟩

/-- Two address-complete, path-free modules with distinct names. -/
def wA : TdvfModule := ⟨"A", 0x1000, 0x1010, 0x1110, 0x100, none, none, none⟩

def wB : TdvfModule := ⟨"B", 0x2000, 0x2020, 0x2070, 0x50, none, none, none⟩

/-- Two records sharing the name `X` but with different addresses. -/
def recX1 : ModuleRecord := ⟨"X", "0x1000", "0x1010", "0x1110", 0x100, none, none, none⟩

def recX2 : ModuleRecord := ⟨"X", "0x2000", "0x2020", "0x2070", 0x50, none, none, none⟩

/-- The module `recX2` parses to. -/
def mX2mod : TdvfModule := ⟨"X", 0x2000, 0x2020, 0x2070, 0x50, none, none, none⟩

/-- The module `recX1` parses to. -/
def mX1mod : TdvfModule := ⟨"X", 0x1000, 0x1010, 0x1110, 0x100, none, none, none⟩

/-- `mSec` after a successful `fill_text_info` with offset `0x10` and
size `0x100`. -/
def mSecFilled : TdvfModule :=
  ⟨"SecMain", 0x1000, 0x1010, 0x1110, 0x100, none, none, some "SecMain.efi"⟩

/-! ## Hex round-trip lemmas -/

theorem hexDigitsFuel_congr : ∀ f1 f2 n, n ≤ f1 → n ≤ f2 →
    hexDigitsFuel f1 n = hexDigitsFuel f2 n := by
  intro f1
  induction f1 with
  | zero =>
    intro f2 n h1 _
    interval_cases n
    cases f2 <;> simp [hexDigitsFuel]
  | succ f ih =>
    intro f2 n h1 h2
    cases f2 with
    | zero =>
      interval_cases n
      simp [hexDigitsFuel]
    | succ f2' =>
      by_cases hn : n = 0
      · simp [hexDigitsFuel, hn]
      · simp only [hexDigitsFuel, if_neg hn]
        have hx : n / 16 < n := Nat.div_lt_self (by omega) (by omega)
        congr 1
        exact ih f2' (n / 16) (by omega) (by omega)

theorem digitsLE_succ (n : Nat) (h : n ≠ 0) :
    digitsLE n = n % 16 :: digitsLE (n / 16) := by
  unfold digitsLE
  cases n with
  | zero => exact absurd rfl h
  | succ k =>
    simp only [hexDigitsFuel, if_neg h]
    have hx : (k + 1) / 16 < k + 1 := Nat.div_lt_self (by omega) (by omega)
    rw [hexDigitsFuel_congr k ((k + 1) / 16) ((k + 1) / 16) (by omega) (by omega)]

theorem valLE_digitsLE (n : Nat) : valLE (digitsLE n) = n := by
  induction n using Nat.strong_induction_on with
  | _ n ih =>
    by_cases h : n = 0
    · subst h; rfl
    · rw [digitsLE_succ n h]
      simp only [valLE]
      rw [ih (n / 16) (Nat.div_lt_self (by omega) (by omega))]
      omega

theorem hexDigitsFuel_lt : ∀ f n d, d ∈ hexDigitsFuel f n → d < 16 := by
  intro f
  induction f with
  | zero => simp [hexDigitsFuel]
  | succ f ih =>
    intro n d hd
    by_cases h : n = 0
    · simp [hexDigitsFuel, h] at hd
    · simp only [hexDigitsFuel, if_neg h, List.mem_cons] at hd
      rcases hd with h1 | h2
      · have := Nat.mod_lt n (y := 16) (by omega)
        omega
      · exact ih _ _ h2

theorem digitsLE_lt (n d : Nat) (hd : d ∈ digitsLE n) : d < 16 :=
  hexDigitsFuel_lt n n d hd

theorem parseHexDigit_hexDigitChar (d : Nat) (h : d < 16) :
    parseHexDigit (hexDigitChar d) = some d := by
  interval_cases d <;> rfl

theorem parseHexCore_map (L : List Nat) (h : ∀ d ∈ L, d < 16) (acc : Nat) :
    parseHexCore (L.map hexDigitChar) acc =
      some (L.foldl (fun a d => 16 * a + d) acc) := by
  induction L generalizing acc with
  | nil => rfl
  | cons d ds ih =>
    simp only [List.map_cons, parseHexCore,
      parseHexDigit_hexDigitChar d (h d (by simp)), List.foldl_cons]
    exact ih (fun x hx => h x (by simp [hx])) _

theorem foldl_hexval_reverse (L : List Nat) (acc : Nat) :
    L.reverse.foldl (fun a d => 16 * a + d) acc = acc * 16 ^ L.length + valLE L := by
  induction L generalizing acc with
  | nil => simp [valLE]
  | cons d ds ih =>
    rw [List.reverse_cons, List.foldl_append]
    simp only [List.foldl_cons, List.foldl_nil]
    rw [ih]
    simp only [valLE, List.length_cons, pow_succ]
    ring

theorem int16_cons0x (rest : List Char) :
    int16 ⟨'0' :: 'x' :: rest⟩ = if rest.isEmpty then none else parseHexCore rest 0 := rfl

theorem int16_pyHex (n : Nat) : int16 (pyHex n) = some n := by
  by_cases hne : n = 0
  · subst hne; rfl
  · obtain ⟨d, ds, hds⟩ : ∃ d ds, digitsLE n = d :: ds := by
      rw [digitsLE_succ n hne]
      exact ⟨_, _, rfl⟩
    rw [pyHex, pyHexChars, if_neg hne, int16_cons0x, hds]
    rw [if_neg (by simp)]
    rw [← hds]
    rw [parseHexCore_map _ (fun x hx => digitsLE_lt n x (List.mem_reverse.mp hx)) 0]
    rw [foldl_hexval_reverse]
    rw [valLE_digitsLE]
    simp

theorem addressOfStr_pyHex (n : Nat) (h : n ≤ ADDR_MAX) :
    addressOfStr (pyHex n) = .ok n := by
  rw [addressOfStr, int16_pyHex]
  simp [mkAddress, h]

/-! ## Order and collection lemmas -/

theorem exceptBind_ok {α β : Type} (a : α) (f : α → Except String β) :
    (Except.ok a >>= f) = f a := rfl

theorem exceptBind_error {α β : Type} (e : String) (f : α → Except String β) :
    ((Except.error e : Except String α) >>= f) = Except.error e := rfl

theorem modLTb_iff (a b : TdvfModule) :
    modLTb a b = true ↔
      (a.t_start < b.t_start ∨ (a.t_start = b.t_start ∧ a.t_end < b.t_end)) := by
  simp [modLTb]

theorem modLTb_eq_false_iff (a b : TdvfModule) :
    modLTb a b = false ↔
      ¬(a.t_start < b.t_start ∨ (a.t_start = b.t_start ∧ a.t_end < b.t_end)) := by
  rw [← modLTb_iff]
  cases modLTb a b <;> simp

instance : IsTotal TdvfModule modLE :=
  ⟨by
    intro a b
    simp only [modLE, modLTb_eq_false_iff]
    omega⟩

instance : IsTrans TdvfModule modLE :=
  ⟨by
    intro a b c hab hbc
    simp only [modLE, modLTb_eq_false_iff] at *
    omega⟩

instance : IsTotal (String × TdvfModule) pairLE :=
  ⟨by
    intro p q
    simp only [pairLE, modLE, modLTb_eq_false_iff]
    omega⟩

instance : IsTrans (String × TdvfModule) pairLE :=
  ⟨by
    intro p q s h1 h2
    simp only [pairLE, modLE, modLTb_eq_false_iff] at *
    omega⟩

theorem modLE_t_start_le {a b : TdvfModule} (h : modLE a b) :
    a.t_start ≤ b.t_start := by
  simp only [modLE, modLTb_eq_false_iff] at h
  omega

theorem nonDecreasing_of_sorted : ∀ l : List TdvfModule, l.Sorted modLE →
    nonDecreasing (l.map (·.t_start)) = true := by
  intro l
  induction l with
  | nil => intro _; rfl
  | cons a t ih =>
    intro hs
    rw [List.sorted_cons] at hs
    obtain ⟨hall, hs2⟩ := hs
    cases t with
    | nil => rfl
    | cons b t2 =>
      have h1 : a.t_start ≤ b.t_start := modLE_t_start_le (hall b (by simp))
      have h2 := ih hs2
      simp only [List.map_cons, nonDecreasing] at h2 ⊢
      simp [h1, h2]

theorem odInsert_replace_keys (acc : List (String × TdvfModule)) (m : TdvfModule) :
    ((acc.map fun p => if p.1 == m.name then (p.1, m) else p).map (·.1)) =
      acc.map (·.1) := by
  rw [List.map_map]
  apply List.map_congr_left
  intro p _
  by_cases h : p.1 = m.name <;> simp [h]

theorem odInsert_fst_nodup (acc : List (String × TdvfModule)) (m : TdvfModule)
    (h : (acc.map (·.1)).Nodup) : ((odInsert acc m).map (·.1)).Nodup := by
  rw [odInsert]
  by_cases hc : acc.any (fun p => p.1 == m.name) = true
  · rw [if_pos hc, odInsert_replace_keys]
    exact h
  · rw [if_neg hc, List.map_append, List.nodup_append]
    refine ⟨h, by simp, ?_⟩
    intro x hx hx2
    simp only [List.any_eq_true, beq_iff_eq] at hc
    simp only [List.map_cons, List.map_nil, List.mem_singleton] at hx2
    subst hx2
    simp only [List.mem_map] at hx
    obtain ⟨p, hp, hpe⟩ := hx
    exact hc ⟨p, hp, hpe⟩

theorem odInsert_coh (acc : List (String × TdvfModule)) (m : TdvfModule)
    (h : ∀ p ∈ acc, p.1 = p.2.name) : ∀ p ∈ odInsert acc m, p.1 = p.2.name := by
  rw [odInsert]
  by_cases hc : acc.any (fun p => p.1 == m.name) = true
  · rw [if_pos hc]
    intro p hp
    simp only [List.mem_map] at hp
    obtain ⟨q, hq, hqe⟩ := hp
    by_cases h2 : q.1 == m.name
    · simp only [if_pos h2] at hqe
      subst hqe
      simpa using h2
    · simp only [if_neg h2] at hqe
      subst hqe
      exact h q hq
  · rw [if_neg hc]
    intro p hp
    rcases List.mem_append.mp hp with h1 | h2
    · exact h p h1
    · simp only [List.mem_singleton] at h2
      subst h2
      rfl

theorem foldl_odInsert_inv (ms : List TdvfModule) :
    ∀ acc : List (String × TdvfModule), (acc.map (·.1)).Nodup →
      (∀ p ∈ acc, p.1 = p.2.name) →
      ((ms.foldl odInsert acc).map (·.1)).Nodup ∧
        ∀ p ∈ ms.foldl odInsert acc, p.1 = p.2.name := by
  induction ms with
  | nil => intro acc h1 h2; exact ⟨h1, h2⟩
  | cons m t ih =>
    intro acc h1 h2
    rw [List.foldl_cons]
    exact ih (odInsert acc m) (odInsert_fst_nodup acc m h1) (odInsert_coh acc m h2)

theorem odOfList_fst_nodup (ms : List TdvfModule) :
    ((odOfList ms).map (·.1)).Nodup :=
  (foldl_odInsert_inv ms [] (by simp) (by simp)).1

theorem odOfList_coh (ms : List TdvfModule) :
    ∀ p ∈ odOfList ms, p.1 = p.2.name :=
  (foldl_odInsert_inv ms [] (by simp) (by simp)).2

theorem odOfList_values_names_nodup (ms : List TdvfModule) :
    (((odOfList ms).map (·.2)).map (·.name)).Nodup := by
  have h : ((odOfList ms).map (·.2)).map (·.name) = (odOfList ms).map (·.1) := by
    rw [List.map_map]
    exact List.map_congr_left fun p hp => (odOfList_coh ms p hp).symm
  rw [h]
  exact odOfList_fst_nodup ms

theorem foldl_odInsert_eq_append (ms : List TdvfModule) :
    ∀ acc : List (String × TdvfModule),
      (acc.map (·.1) ++ ms.map (·.name)).Nodup →
      ms.foldl odInsert acc = acc ++ ms.map fun m => (m.name, m) := by
  induction ms with
  | nil => intro acc _; simp
  | cons m t ih =>
    intro acc h
    simp only [List.map_cons] at h
    have hnotin : ¬acc.any (fun p => p.1 == m.name) = true := by
      simp only [List.any_eq_true, beq_iff_eq]
      rintro ⟨p, hp, hpe⟩
      rw [List.nodup_append] at h
      exact h.2.2 (List.mem_map.mpr ⟨p, hp, hpe⟩) (by simp)
    rw [List.foldl_cons, odInsert, if_neg hnotin]
    rw [ih (acc ++ [(m.name, m)]) (by simpa using h)]
    simp

theorem odOfList_eq_map (ms : List TdvfModule) (h : (ms.map (·.name)).Nodup) :
    odOfList ms = ms.map fun m => (m.name, m) := by
  have := foldl_odInsert_eq_append ms [] (by simpa using h)
  simpa [odOfList] using this

/-! ## Serialization round trip -/

theorem setTSize_natCast (n : Nat) : setTSize (n : Int) = .ok n := by
  simp [setTSize]

theorem from_dict_to_dict (fs : String → Bool) (m : TdvfModule) (h : m.valid fs) :
    TdvfModule.from_dict fs m.to_dict = .ok m := by
  obtain ⟨h1, h2, h3, h4, h5, h6⟩ := h
  simp only [TdvfModule.from_dict, TdvfModule.to_dict,
    addressOfStr_pyHex _ h1, addressOfStr_pyHex _ h2, addressOfStr_pyHex _ h3,
    setTSize_natCast, exceptBind_ok, h4, h5, h6]

theorem exceptMapM_roundtrip (fs : String → Bool) (ms : List TdvfModule)
    (h : ∀ m ∈ ms, m.valid fs) :
    exceptMapM (TdvfModule.from_dict fs) (ms.map TdvfModule.to_dict) = .ok ms := by
  induction ms with
  | nil => rfl
  | cons m t ih =>
    simp only [List.map_cons, exceptMapM,
      from_dict_to_dict fs m (h m (by simp)), exceptBind_ok,
      ih fun x hx => h x (by simp [hx])]

theorem isEmpty_map_pair_of_ne_nil (ms : List TdvfModule) (hne : ms ≠ []) :
    ((ms.map fun m => (m.name, m)).isEmpty) = false := by
  cases h : ms with
  | nil => exact absurd h hne
  | cons a t => simp

/-- C4, step theorem: reading back the records written for a table whose
modules have distinct names and pass their own setters yields a table
whose module list is a permutation (a re-sort) of the original one — in
particular the same set of names with identical field values per name. -/
theorem table_json_roundtrip_aux (fs : String → Bool) (ms : List TdvfModule)
    (hne : ms ≠ [])
    (hnd : (ms.map (·.name)).Nodup)
    (hv : ∀ m ∈ ms, m.valid fs) :
    ∃ view : List TdvfModule,
      read_from_records fs (ms.map TdvfModule.to_dict) = .ok ⟨view⟩ ∧
        view.Perm ms := by
  have hmapM := exceptMapM_roundtrip fs ms hv
  have hod : odOfList ms = ms.map fun m => (m.name, m) := odOfList_eq_map ms hnd
  have hperm1 :
      ((List.insertionSort pairLE (ms.map fun m => (m.name, m))).map (·.2)).Perm ms := by
    have h1 := (List.perm_insertionSort pairLE (ms.map fun m => (m.name, m))).map (·.2)
    rw [List.map_map] at h1
    rw [show ((fun x : String × TdvfModule => x.2) ∘ fun m : TdvfModule => (m.name, m)) =
        fun m : TdvfModule => m from rfl] at h1
    simpa using h1
  have hperm2 :
      (List.insertionSort modLE
        ((List.insertionSort pairLE (ms.map fun m => (m.name, m))).map (·.2))).Perm ms :=
    (List.perm_insertionSort modLE _).trans hperm1
  have hnd2 :
      ((List.insertionSort modLE
        ((List.insertionSort pairLE (ms.map fun m => (m.name, m))).map (·.2))).map
          (·.name)).Nodup :=
    (hperm2.map (·.name)).nodup_iff.mpr hnd
  have hod2 := odOfList_eq_map _ hnd2
  have hsorted :
      (List.insertionSort modLE
        ((List.insertionSort pairLE (ms.map fun m => (m.name, m))).map (·.2))).Sorted
        modLE :=
    List.sorted_insertionSort modLE _
  have hguard := nonDecreasing_of_sorted _ hsorted
  refine ⟨_, ?_, hperm2⟩
  simp only [read_from_records, hmapM, exceptBind_ok, hod, tableInit,
    isEmpty_map_pair_of_ne_nil ms hne, Bool.false_eq_true, if_false, hod2,
    List.map_map]
  simp only [show ((fun p : String × TdvfModule => p.2) ∘ fun m : TdvfModule => (m.name, m)) =
      fun m : TdvfModule => m from rfl, List.map_id']
  rw [if_pos ?hg]
  case hg =>
    simpa [List.map_map] using hguard

theorem mkAddress_ok (v : Nat) (h : v ≤ ADDR_MAX) : mkAddress v = .ok v := by
  simp [mkAddress, h]

/-! ## Claims -/

/-- C6: for every `v` with `0 ≤ v ≤ 2^64-1`, constructing an `Address`
from the hexadecimal string `hex(v)` yields the numeric value `v` back,
constructing it from the integer `v` succeeds with value `v`, and the
stored hexadecimal form `hex(v)` parses back to `v` with `int(_, 16)`:
the parse/render round trip is exact. -/
theorem claim6_address_roundtrip (v : Nat) (h : v ≤ ADDR_MAX) :
    addressOfStr (pyHex v) = .ok v ∧ mkAddress v = .ok v ∧
      int16 (pyHex v) = some v :=
  ⟨addressOfStr_pyHex v h, mkAddress_ok v h, int16_pyHex v⟩

/-- Witness for C6 at `v = 0xdeadbeef`. -/
theorem claim6_address_roundtrip_witness :
    addressOfStr (pyHex 0xdeadbeef) = .ok 0xdeadbeef ∧
      mkAddress 0xdeadbeef = .ok 0xdeadbeef ∧
      int16 (pyHex 0xdeadbeef) = some 0xdeadbeef :=
  claim6_address_roundtrip 0xdeadbeef (by decide)

/-- C7: `Address.__add__` re-validates the exact sum: within bounds it
returns the sum, beyond `2^64-1` it fails (raises) instead of wrapping. -/
theorem claim7_address_add_checked (a b : Nat) :
    (a + b ≤ ADDR_MAX → addAddress a b = .ok (a + b)) ∧
    (ADDR_MAX < a + b →
      addAddress a b =
        .error "address value must be smaller or equal to 18446744073709551615") := by
  constructor
  · intro h
    simp [addAddress, mkAddress, h]
  · intro h
    simp only [addAddress, mkAddress]
    rw [if_neg (by omega)]

/-- Witness for C7: an in-range sum and an overflowing sum. -/
theorem claim7_address_add_checked_witness :
    addAddress 3 4 = .ok 7 ∧
      addAddress ADDR_MAX 1 =
        .error "address value must be smaller or equal to 18446744073709551615" :=
  ⟨(claim7_address_add_checked 3 4).1 (by decide),
   (claim7_address_add_checked ADDR_MAX 1).2 (by decide)⟩

/-- C9 (code bug): a module whose image base was never set (the attribute
keeps the constructor default `0`) does NOT make `fill_text_info` fail:
`compute_tstart`'s `assert self.img_base, "cannot compute .text start
without image base"` is vacuous because `Address` defines neither
`__bool__` nor `__len__`, so `Address(0)` is truthy.  The code silently
computes `text_start = 0 + offset`, against the assert's own message. -/
theorem claim9_missing_base_not_rejected :
    TdvfModule.fill_text_info (fun _ => .ok (0x10, 0x100)) mZeroBase =
      .ok ⟨"SecMain", 0, 0x10, 0x110, 0x100, none, none, some "SecMain.efi"⟩ := by
  decide

/-- C10: `__eq__`, `__lt__` and `__gt__` compare only the `.text`
bounds, so two modules with different names, bases or paths but the same
bounds compare equal. -/
theorem claim10_compare_bounds_only (a b : TdvfModule) :
    (TdvfModule.pyEq a b = true ↔ a.t_start = b.t_start ∧ a.t_end = b.t_end) ∧
    (modLTb a b = true ↔
      (a.t_start < b.t_start ∨ (a.t_start = b.t_start ∧ a.t_end < b.t_end))) ∧
    (modGTb a b = true ↔
      (b.t_start < a.t_start ∨ (a.t_start = b.t_start ∧ b.t_end < a.t_end))) := by
  refine ⟨?_, modLTb_iff a b, ?_⟩
  · simp [TdvfModule.pyEq]
  · simp [modGTb]

/-- C1 counterexample: with image base `0x1000` and the artifact reader
yielding offset `0x10` and size `0` (all non-negative, sum within
`2^64-1`), `fill_text_info` raises `compute_tend`'s assertion instead of
setting the text fields: the claim fails at `S = 0`. -/
theorem claim1_zero_size_counterexample :
    TdvfModule.fill_text_info (fun _ => .ok (0x10, 0)) mSec =
      .error "cannot compute .text end without .text size" := by
  decide

/-- C1 amended: additionally requiring `S ≥ 1` (the source's
`assert t_size` rejects a zero size), `fill_text_info` on a module with
image base `B` and a readable artifact yielding offset `O` and size `S`
sets `text_size = S`, `text_start = B + O` and
`text_end = text_start + S`, exactly. -/
theorem claim1_fill_text_info_exact (reader : String → Except String (Nat × Nat))
    (m : TdvfModule) (p : String) (O S : Nat)
    (hp : m.efi_path = some p) (hpne : p ≠ "")
    (hr : reader p = .ok (O, S)) (hS : 1 ≤ S)
    (hbound : m.img_base + O + S ≤ ADDR_MAX) :
    TdvfModule.fill_text_info reader m =
      .ok { m with t_size := S, t_start := m.img_base + O,
                   t_end := m.img_base + O + S } := by
  simp only [TdvfModule.fill_text_info, hp]
  rw [if_neg hpne]
  simp only [hr, exceptBind_ok, mkAddress_ok O (by omega), exceptBind_ok,
    mkAddress_ok (m.img_base + O) (by omega), exceptBind_ok]
  rw [if_neg (by omega : ¬(S = 0))]
  simp only [mkAddress_ok (m.img_base + O + S) (by omega), exceptBind_ok]

/-- Witness for C1 at `B = 0x1000`, `O = 0x10`, `S = 0x100`. -/
theorem claim1_fill_text_info_exact_witness :
    TdvfModule.fill_text_info (fun _ => .ok (0x10, 0x100)) mSec =
      .ok { mSec with t_size := 0x100, t_start := mSec.img_base + 0x10,
                      t_end := mSec.img_base + 0x10 + 0x100 } :=
  claim1_fill_text_info_exact (fun _ => .ok (0x10, 0x100)) mSec "SecMain.efi"
    0x10 0x100 rfl (by decide) rfl (by decide) (by decide)

/-- C2 counterexample: the direct setter path accepts inconsistent
values.  `TdvfModule('X', 0, 0, 5, 3)` constructs successfully even
though `t_end = 5 ≠ 0 + 3 = t_start + t_size`: no setter relates the
three fields, so the claimed rejection does not exist. -/
theorem claim2_init_accepts_inconsistent :
    TdvfModule.init (fun _ => false) "X" 0 0 5 3 none none none =
      .ok ⟨"X", 0, 0, 5, 3, none, none, none⟩ ∧ (5 : Nat) ≠ 0 + 3 := by
  decide

/-- C2 amended: the invariant `text_end = text_start + text_size` is
established by every successful `fill_text_info` (the only path that
computes the three fields together); the constructor/setter path performs
no such consistency check. -/
theorem claim2_fill_invariant (reader : String → Except String (Nat × Nat))
    (m m' : TdvfModule) (h : TdvfModule.fill_text_info reader m = .ok m') :
    m'.t_end = m'.t_start + m'.t_size := by
  unfold TdvfModule.fill_text_info at h
  cases hefi : m.efi_path with
  | none => simp [hefi] at h
  | some p =>
    simp only [hefi] at h
    by_cases hp : p = ""
    · simp [hp] at h
    · rw [if_neg hp] at h
      cases hrd : reader p with
      | error e =>
        rw [hrd] at h
        simp [exceptBind_error] at h
      | ok pr =>
        obtain ⟨O, S⟩ := pr
        rw [hrd] at h
        simp only [exceptBind_ok] at h
        unfold mkAddress at h
        split at h
        · simp only [exceptBind_ok] at h
          split at h
          · simp only [exceptBind_ok] at h
            split at h
            · simp at h
            · split at h
              · simp only [exceptBind_ok] at h
                obtain rfl : _ = m' := (Except.ok.inj h)
                rfl
              · simp [exceptBind_error] at h
          · simp [exceptBind_error] at h
        · simp [exceptBind_error] at h

/-- Witness for C2's amended theorem at a concrete successful fill. -/
theorem claim2_fill_invariant_witness :
    mSecFilled.t_end = mSecFilled.t_start + mSecFilled.t_size :=
  claim2_fill_invariant (fun _ => .ok (0x10, 0x100)) mSec mSecFilled (by decide)

/-- C3 counterexample: the `modules` setter applied to three
address-complete modules whose names collide (`X`, `Y`, `X` with
`t_start` 0, 1, 2) produces the enumeration `[mX3, mY2]` with `t_start`
sequence `[2, 1]`: the dict overwrite keeps the first occurrence's
position but the last occurrence's value, breaking the sorted view. -/
theorem claim3_duplicate_name_counterexample :
    modulesView [mX1, mY2, mX3] = [mX3, mY2] ∧
      nonDecreasing ((modulesView [mX1, mY2, mX3]).map (·.t_start)) = false := by
  decide

/-- C3 amended: when the modules have pairwise distinct names — true of
every table built through `read_from_file`/`__init__`, which key by name
first — the `modules` setter re-derives a view sorted by the pair
(`t_start`, `t_end`), and in particular the `t_start` enumeration is
non-decreasing. -/
theorem claim3_view_sorted (ms : List TdvfModule)
    (hnd : (ms.map (·.name)).Nodup) :
    (modulesView ms).Sorted modLE ∧
      nonDecreasing ((modulesView ms).map (·.t_start)) = true := by
  have hperm : (List.insertionSort modLE ms).Perm ms := List.perm_insertionSort _ _
  have hnd2 : ((List.insertionSort modLE ms).map (·.name)).Nodup :=
    (hperm.map (·.name)).nodup_iff.mpr hnd
  have hview : modulesView ms = List.insertionSort modLE ms := by
    rw [modulesView, modulesSetter, odOfList_eq_map _ hnd2, List.map_map]
    rw [show ((fun x : String × TdvfModule => x.2) ∘ fun m : TdvfModule => (m.name, m)) =
        fun m : TdvfModule => m from rfl]
    simp
  rw [hview]
  exact ⟨List.sorted_insertionSort modLE ms,
    nonDecreasing_of_sorted _ (List.sorted_insertionSort modLE ms)⟩

/-- Witness for C3's amended theorem on two distinct-name modules. -/
theorem claim3_view_sorted_witness :
    (modulesView [wB, wA]).Sorted modLE ∧
      nonDecreasing ((modulesView [wB, wA]).map (·.t_start)) = true :=
  claim3_view_sorted [wB, wA] (by decide)

/-- C4: serializing a table (whose modules carry distinct names and whose
stored fields pass their own setters, as every constructed module does)
to its JSON records and reading the records back yields an equivalent
table: its module list is a permutation of the original, hence the same
set of names with identical `img_base`, `text_start`, `text_end`,
`text_size` and path fields for each name. -/
theorem claim4_table_json_roundtrip (fs : String → Bool) (T : TdvfModuleTable)
    (hne : T.modules ≠ []) (hnd : (T.modules.map (·.name)).Nodup)
    (hv : ∀ m ∈ T.modules, m.valid fs) :
    ∃ T' : TdvfModuleTable,
      read_from_records fs T.to_json_records = .ok T' ∧
        T'.modules.Perm T.modules := by
  obtain ⟨view, h1, h2⟩ := table_json_roundtrip_aux fs T.modules hne hnd hv
  exact ⟨⟨view⟩, by simpa [TdvfModuleTable.to_json_records] using h1, h2⟩

/-- Witness for C4 on a two-module table. -/
theorem claim4_table_json_roundtrip_witness :
    ∃ T' : TdvfModuleTable,
      read_from_records (fun _ => true)
          (TdvfModuleTable.to_json_records ⟨[wA, wB]⟩) = .ok T' ∧
        T'.modules.Perm [wA, wB] :=
  claim4_table_json_roundtrip (fun _ => true) ⟨[wA, wB]⟩ (by decide) (by decide)
    (by decide)

/-- C5 counterexample: loading two records that share the name `X` does
not fail with any duplicate-name error — it succeeds and silently keeps
only the later record's module (`modules[m.name] = m` overwrites). -/
theorem claim5_duplicate_load_counterexample :
    read_from_records (fun _ => true) [recX1, recX2] = .ok ⟨[mX2mod]⟩ := by
  decide

/-- C5 amended: a table produced by `read_from_file` indeed never holds
two modules with the same name — the storage is keyed by name — but
duplicates among the loaded records are silently collapsed (last record
wins) rather than rejected. -/
theorem claim5_read_names_nodup (fs : String → Bool) (rs : List ModuleRecord)
    (T : TdvfModuleTable) (h : read_from_records fs rs = .ok T) :
    (T.modules.map (·.name)).Nodup := by
  unfold read_from_records at h
  cases hms : exceptMapM (TdvfModule.from_dict fs) rs with
  | error e =>
    rw [hms] at h
    simp [exceptBind_error] at h
  | ok ms =>
    rw [hms] at h
    simp only [exceptBind_ok] at h
    unfold tableInit at h
    split at h
    · exact Except.noConfusion h
    · dsimp only at h
      split at h
      · obtain rfl : _ = T := Except.ok.inj h
        exact odOfList_values_names_nodup _
      · exact Except.noConfusion h

/-- Witness for C5's amended theorem on a single-record load. -/
theorem claim5_read_names_nodup_witness :
    ((TdvfModuleTable.mk [mX1mod]).modules.map (·.name)).Nodup :=
  claim5_read_names_nodup (fun _ => true) [recX1] ⟨[mX1mod]⟩ (by decide)

/-- C8 counterexample: with a module lacking its artifact path first in
the table and a fillable module second, the bulk fill raises the first
module's error and never attempts the second (which on its own fills
fine); the result is a bare exception, not an enumeration of per-module
successes and failures. -/
theorem claim8_abort_counterexample :
    TdvfModuleTable.fill_text_info (fun _ => .ok (0x10, 0x100)) ⟨[mNoEfi, mSec]⟩ =
        .error "must specify a valid module .efi file path" ∧
      TdvfModuleTable.fill_text_info (fun _ => .ok (0x10, 0x100)) ⟨[mSec]⟩ =
        .ok ⟨[mSecFilled]⟩ := by
  decide

/-- C8 amended: `TdvfModuleTable.fill_text_info` is a bare loop — the
first per-module failure propagates immediately as the table-level
result, aborting the remaining modules. -/
theorem claim8_fill_aborts_on_first_error (reader : String → Except String (Nat × Nat))
    (m : TdvfModule) (ms : List TdvfModule) (e : String)
    (h : TdvfModule.fill_text_info reader m = .error e) :
    TdvfModuleTable.fill_text_info reader ⟨m :: ms⟩ = .error e := by
  simp [TdvfModuleTable.fill_text_info, exceptMapM, h, exceptBind_error]

/-- Witness for C8's amended theorem. -/
theorem claim8_fill_aborts_on_first_error_witness :
    TdvfModuleTable.fill_text_info (fun _ => .ok (0x10, 0x100)) ⟨[mNoEfi]⟩ =
      .error "must specify a valid module .efi file path" :=
  claim8_fill_aborts_on_first_error (fun _ => .ok (0x10, 0x100)) mNoEfi [] _ (by decide)

/-- C4 counterexample: the empty table (obtainable via the `modules`
setter with an empty list) serializes to the empty record list, but
reading that back hits `__init__`'s `if modules:` guard, which skips the
assignment for a falsy dict and leaves the `modules` attribute of the
reconstructed table unset (any later access raises `AttributeError`):
no equivalent table is produced. -/
theorem claim4_empty_table_counterexample :
    read_from_records (fun _ => true) (TdvfModuleTable.to_json_records ⟨[]⟩) =
      .error "TdvfModuleTable.modules left unset" := by
  decide
